import Mathlib

/-!
# Verification of the EVM interpreter core

A shallow embedding, in Lean 4, of the core of the Rust EVM interpreter
found under `src/rust/src` (256-bit word arithmetic, bytecode decoding,
the evaluation stack, linear memory, world state, and the per-opcode
interpreter step with nested calls), together with theorems settling the
frozen claims C1..C10 about that code.

Machine integers are modelled as `Nat` with explicit `% 2 ^ 256`
(for 256-bit words), explicit clamping for the `Bitsize`/`Bytesize`
index types, and explicit saturation for `usize` conversions.
Fallible operations return `Option`.  External primitives (Keccak-256)
are passed as explicit function parameters, mirroring their role as
opaque collaborators of the core.
-/

set_option maxRecDepth 100000
set_option maxHeartbeats 2000000

/-- The modulus `2 ^ 256` of the EVM word type `U256`. -/
def wordMod : Nat := 2 ^ 256

/-- The word `2 ^ 255`: the most negative signed 256-bit
integer `MIN_INT` (`Int256::max_negative_value` in `types/int256.rs`). -/
def minIntRaw : Nat := 2 ^ 255

/-- The raw word of all one bits: `-1` in two's complement
(`Int256::negative_one` in `types/int256.rs`). -/
def negOneRaw : Nat := 2 ^ 256 - 1

/-- Saturating conversion from a 256-bit word to `usize`
(`saturating_to::<usize>()` on a 64-bit host). -/
def usat (u : Nat) : Nat := min u (2 ^ 64 - 1)

/-- Narrowing conversion from a word to a 20-byte address:
`Address::from(U256)` in `types/address.rs` keeps the low 160 bits. -/
def u2a (u : Nat) : Nat := u % 2 ^ 160

/-! ## Signed 256-bit integers (`types/int256.rs`)

`Int256` is a view of a raw `U256`; the sign bit is bit 255. -/

/-- Rust `Int256::is_negative`: bit `0xFF` of the raw word. -/
def int256IsNeg (u : Nat) : Bool := u.testBit 255

/-- Wrapping `!u + 1`: the two's complement negation used by
`Int256::from_u256` and `Int256::abs`. -/
def twosComplement (u : Nat) : Nat := (2 ^ 256 - u % 2 ^ 256) % 2 ^ 256

/-- Rust `Int256::abs`: the magnitude of the signed reading of `u`. -/
def int256Abs (u : Nat) : Nat := if int256IsNeg u then twosComplement u else u

/-- Rust `Int256::from_u256 (magnitude, is_negative)`: encode a magnitude and a
sign back into a raw word (two's complement for the negative case). -/
def int256FromMag (mag : Nat) (neg : Bool) : Nat :=
  if neg then twosComplement mag else mag

/-- Rust `impl Div for Int256` (`types/int256.rs` lines 130-148): the SDIV
semantics.  Divisor zero gives 0; `MIN_INT / -1` gives `MIN_INT`;
otherwise the quotient of the magnitudes carries the XOR of the signs. -/
def int256Div (a b : Nat) : Nat :=
  if b = 0 then 0
  else if a = minIntRaw ∧ b = negOneRaw then a
  else int256FromMag (int256Abs a / int256Abs b) (xor (int256IsNeg a) (int256IsNeg b))

/-- Rust `impl Rem for Int256` (`types/int256.rs` lines 150-168): the SMOD
semantics.  Divisor zero gives 0; the `MIN_INT % -1` special case
returns the dividend; otherwise the remainder of the magnitudes carries
the sign of the dividend. -/
def int256Rem (a b : Nat) : Nat :=
  if b = 0 then 0
  else if a = minIntRaw ∧ b = negOneRaw then a
  else int256FromMag (int256Abs a % int256Abs b) (int256IsNeg a)

/-- Rust `IntN::sign_extend` (`types/int256.rs` lines 203-217) for an `IntN`
of `size + 1` bytes: if bit `8 * size + 7` of the raw value is set, the
top `31 - size` bytes of its big-endian representation are replaced by
`0xFF`; otherwise the raw value is returned unchanged. -/
def intNSignExtend (raw : Nat) (size : Nat) : Nat :=
  if raw.testBit (8 * size + 7) then
    (2 ^ 256 - 2 ^ (8 * (size + 1))) + raw % 2 ^ (8 * (size + 1))
  else raw

/-- Rust `impl Shr<Bitsize> for Int256` (`types/int256.rs` lines 170-188),
with the `Bitsize` clamp of `From<U256> for Bitsize` applied to the
shift first: this is exactly the computation of the SAR opcode arm.
For shift 255 it returns 0 or all-ones by the sign; otherwise it shifts
the raw bits right and, for a negative value, calls `IntN::sign_extend`
with `size := shift / 8` (the `From<Bitsize> for Bytesize` conversion). -/
def sarCode (shift value : Nat) : Nat :=
  let sh := min shift 255
  if sh = 255 then (if int256IsNeg value then negOneRaw else 0)
  else
    let raw := value >>> sh
    if int256IsNeg value then intNSignExtend raw (sh / 8) else raw

/-- The SAR semantics as the specification words it: the arithmetic
right shift of `value` read as a signed two's-complement 256-bit
integer, i.e. the floor of the signed value divided by `2 ^ shift`,
encoded back as a raw word.  (The shift is capped at 256, which does
not change the result.) -/
def sarSpec (shift value : Nat) : Nat :=
  let v : Int := if value < 2 ^ 255 then (value : Int) else (value : Int) - 2 ^ 256
  (Int.fdiv v (2 ^ min shift 256) % (2 ^ 256 : Int)).toNat

/-! ## Linear memory (`execution/memory.rs`)

This is the memory implementation present under `src/`: `load` computes
`max = offset + size - 1`, grows the byte vector in 32-byte increments
`while self.size() < max`, and then reads `self.mem.get(offset..=max)`
through `.expect("safe")`.  A `none` result models a panic of the Rust
code (an arithmetic underflow of `offset + size - 1`, or an
out-of-bounds slice in `.get(..).expect("safe")`). -/

/-- Closed form of the `expand_mem` loop of `Memory::load`
(`execution/memory.rs` lines 22-26 and 40-42): starting from `len`,
repeatedly add 32 while the length is strictly below `max`. -/
def growLen (len max : Nat) : Nat :=
  if len < max then len + 32 * ((max - len + 31) / 32) else len

/-- Rust `Memory::load` (`execution/memory.rs` lines 28-48).  Returns the
loaded bytes and the grown memory, or `none` when the Rust code panics. -/
def memLoadCode (mem : List Nat) (offset size : Nat) :
    Option (List Nat × List Nat) :=
  let o := usat offset
  let s := usat size
  if o + s = 0 then none
  else
    let mx := o + s - 1
    let len := growLen mem.length mx
    let mem' := mem ++ List.replicate (len - mem.length) 0
    if o + s ≤ len then some ((mem'.drop o).take s, mem') else none

/-- Rust `Memory::store` (`execution/memory.rs` lines 59-79): grows while
`size() < offset + 31` and then writes 32 bytes at
`mem[offset..=offset+31]`; `none` models the panic of the slice
indexing when the grown length is exactly `offset + 31`. -/
def memStoreCode (mem : List Nat) (offset value : Nat) :
    Option (List Nat) :=
  let o := usat offset
  let mx := o + 31
  let len := growLen mem.length mx
  let mem' := mem ++ List.replicate (len - mem.length) 0
  if mx + 1 ≤ len then
    some ((mem'.take o) ++ (List.range 32).map (fun i => value >>> (8 * (31 - i)) % 256)
      ++ mem'.drop (o + 32))
  else none

/-! ### Claims C4, C5, C6 -/

/-- Claim C4, code_bug evidence.  `Memory::load` does not satisfy the
claimed contract: on empty memory, `load(1, 32)` grows the memory to
exactly 32 bytes (`growLen 0 32 = 32`) and then panics reading indices
`1..=32`, because the growth loop stops as soon as `size() ≥ max` with
`max = offset + size - 1` the highest index rather than the required
length; and `load(0, 0)` panics outright on the underflow of
`offset + size - 1`.  The same off-by-one makes `store(1, v)` panic. -/
theorem c4_memory_load_panics :
    memLoadCode [] 1 32 = none ∧ memLoadCode [] 0 0 = none ∧
    memStoreCode [] 1 0 = none ∧ memLoadCode [] 0 32 ≠ none := by
  refine ⟨by decide, by decide, by decide, by decide⟩

/-- Claim C5, code_bug evidence.  `SAR(1, 2^255)` — the arithmetic right
shift of `MIN_INT` by one bit — must be `0xC000...00 = 2^256 - 2^254`,
but the code produces the logical shift `2^254`: after shifting, the
sign-extension helper looks for the sign at bit `8 * (shift / 8) + 7 = 7`
of the shifted value, finds it clear, and extends nothing. -/
theorem c5_sar_not_arithmetic :
    sarCode 1 (2 ^ 255) = 2 ^ 254 ∧
    sarSpec 1 (2 ^ 255) = 2 ^ 256 - 2 ^ 254 ∧
    sarCode 1 (2 ^ 255) ≠ sarSpec 1 (2 ^ 255) := by
  refine ⟨by decide, by decide, by decide⟩

/-- Claim C6, code_bug evidence.  `SMOD(MIN_INT, -1)` must be 0 (the
magnitude `|MIN_INT| mod |-1|` is 0), but `impl Rem for Int256` carries
a special case copied from `Div` that returns the dividend, so the code
yields `MIN_INT`.  Without that special case the general path of the
same function would give the correct 0. -/
theorem c6_smod_min_neg_one :
    int256Rem minIntRaw negOneRaw = minIntRaw ∧ minIntRaw ≠ 0 ∧
    int256FromMag (int256Abs minIntRaw % int256Abs negOneRaw)
      (int256IsNeg minIntRaw) = 0 := by
  refine ⟨by decide, by decide, by decide⟩

/-! ## Bytecode decoding (`execution/code.rs`)

`Code::opcodes` scans the byte string left to right, producing a sparse
"opcode index" of the same length: position `p` holds the opcode that
begins at `p`, or `none` when `p` lies inside the immediate data of a
`PUSH`.  The scan is embedded with an explicit fuel equal to the
bytecode length (the Rust loop advances `pc` by at least one per
iteration, so this fuel always suffices). -/

/-- The opcode alphabet of the interpreter (`Opcode` in
`execution/code.rs`, extended with the four variants `RETURNDATASIZE`,
`RETURNDATACOPY`, `DELEGATECALL` and `STATICCALL` that the dispatch in
`execution/mod.rs` matches on but whose declaration is absent from the
`code.rs` present under `src/`). -/
inductive Opcode where
  | STOP | ADD | MUL | SUB | DIV | SDIV | MOD | SMOD | ADDMOD | MULMOD
  | EXP | SIGNEXTEND
  | LT | GT | SLT | SGT | EQ | ISZERO | AND | OR | XOR | NOT | BYTE
  | SHL | SHR | SAR | SHA3
  | ADDRESS | BALANCE | ORIGIN | CALLER | CALLVALUE | CALLDATALOAD
  | CALLDATASIZE | CALLDATACOPY | CODESIZE | CODECOPY | GASPRICE
  | EXTCODESIZE | EXTCODECOPY | RETURNDATASIZE | RETURNDATACOPY | EXTCODEHASH
  | BLOCKHASH | COINBASE | TIMESTAMP | NUMBER | DIFFICULTY | GASLIMIT
  | CHAINID | SELFBALANCE | BASEFEE
  | POP | MLOAD | MSTORE | MSTORE8 | SLOAD | SSTORE | JUMP | JUMPI
  | PC | MSIZE | GAS | JUMPDEST
  | PUSH (n : Nat) | DUP (n : Nat) | SWAP (n : Nat) | LOG (n : Nat)
  | CALL | RETURN | DELEGATECALL | STATICCALL | REVERT | INVALID

/-- Number of immediate bytes following the byte `b`: `b - 0x5F` for
`PUSH1..PUSH32` (`0x60..=0x7F`), zero otherwise. -/
def pushLen (b : Nat) : Nat := if 0x60 ≤ b ∧ b ≤ 0x7F then b - 0x5F else 0

/-- Rust `U256::try_from_be_slice`: big-endian value of a byte list. -/
def beBytesVal (bs : List Nat) : Nat := bs.foldl (fun acc b => acc * 256 + b % 256) 0

/-- Modelled from the spec: the four entries `0x3D RETURNDATASIZE`,
`0x3E RETURNDATACOPY`, `0xF4 DELEGATECALL` and `0xFA STATICCALL`, which
the dispatch of `execution/mod.rs` requires but the stale `code.rs`
under `src/` decodes to `INVALID`.  Every other entry of this
byte-to-opcode table is taken verbatim from `Code::opcodes`
(`execution/code.rs` lines 140-231).  `pv` is the already-read
immediate value for `PUSH`.  Any unassigned byte decodes to
`INVALID`. -/
def decodeByte (b : Nat) (pv : Nat) : Opcode :=
  match b with
  | 0x00 => .STOP
  | 0x01 => .ADD
  | 0x02 => .MUL
  | 0x03 => .SUB
  | 0x04 => .DIV
  | 0x05 => .SDIV
  | 0x06 => .MOD
  | 0x07 => .SMOD
  | 0x08 => .ADDMOD
  | 0x09 => .MULMOD
  | 0x0A => .EXP
  | 0x0B => .SIGNEXTEND
  | 0x10 => .LT
  | 0x11 => .GT
  | 0x12 => .SLT
  | 0x13 => .SGT
  | 0x14 => .EQ
  | 0x15 => .ISZERO
  | 0x16 => .AND
  | 0x17 => .OR
  | 0x18 => .XOR
  | 0x19 => .NOT
  | 0x1A => .BYTE
  | 0x1B => .SHL
  | 0x1C => .SHR
  | 0x1D => .SAR
  | 0x20 => .SHA3
  | 0x30 => .ADDRESS
  | 0x31 => .BALANCE
  | 0x32 => .ORIGIN
  | 0x33 => .CALLER
  | 0x34 => .CALLVALUE
  | 0x35 => .CALLDATALOAD
  | 0x36 => .CALLDATASIZE
  | 0x37 => .CALLDATACOPY
  | 0x38 => .CODESIZE
  | 0x39 => .CODECOPY
  | 0x3A => .GASPRICE
  | 0x3B => .EXTCODESIZE
  | 0x3C => .EXTCODECOPY
  | 0x3D => .RETURNDATASIZE
  | 0x3E => .RETURNDATACOPY
  | 0x3F => .EXTCODEHASH
  | 0x40 => .BLOCKHASH
  | 0x41 => .COINBASE
  | 0x42 => .TIMESTAMP
  | 0x43 => .NUMBER
  | 0x44 => .DIFFICULTY
  | 0x45 => .GASLIMIT
  | 0x46 => .CHAINID
  | 0x47 => .SELFBALANCE
  | 0x48 => .BASEFEE
  | 0x50 => .POP
  | 0x51 => .MLOAD
  | 0x52 => .MSTORE
  | 0x53 => .MSTORE8
  | 0x54 => .SLOAD
  | 0x55 => .SSTORE
  | 0x56 => .JUMP
  | 0x57 => .JUMPI
  | 0x58 => .PC
  | 0x59 => .MSIZE
  | 0x5A => .GAS
  | 0x5B => .JUMPDEST
  | 0xF1 => .CALL
  | 0xF3 => .RETURN
  | 0xF4 => .DELEGATECALL
  | 0xFA => .STATICCALL
  | 0xFD => .REVERT
  | _ =>
    if 0x60 ≤ b ∧ b ≤ 0x7F then .PUSH pv
    else if 0x80 ≤ b ∧ b ≤ 0x8F then .DUP (b - 0x7F)
    else if 0x90 ≤ b ∧ b ≤ 0x9F then .SWAP (b - 0x8F)
    else if 0xA0 ≤ b ∧ b ≤ 0xA4 then .LOG (b - 0xA0)
    else .INVALID

/-- One pass of the `Code::opcodes` scan, with explicit fuel.  At a
position `pc` inside the bytecode the decoded opcode is written into
the accumulator and the scan continues past the immediate bytes; the
skipped positions keep their `none` entries.  `PUSH` immediates are
read big-endian and clipped at the end of the bytecode, matching
`&bytecode[counter..min(counter + n, len)]`. -/
def opAux (fuel : Nat) (code : List Nat) (pc : Nat)
    (acc : List (Option Opcode)) : List (Option Opcode) :=
  match fuel with
  | 0 => acc
  | fuel + 1 =>
    if pc < code.length then
      let b := code.getD pc 0
      opAux fuel code (pc + 1 + pushLen b)
        (acc.set pc (some (decodeByte b (beBytesVal ((code.drop (pc + 1)).take (pushLen b))))))
    else acc

/-- Rust `Code::opcodes`: the decoded opcode index of a byte string. -/
def codeOps (code : List Nat) : List (Option Opcode) :=
  opAux code.length code 0 (List.replicate code.length none)

/-- The positions at which the `Code::opcodes` scan decodes an
instruction (the values taken by its `pc` variable). -/
def startsAux (fuel : Nat) (code : List Nat) (pc : Nat) : List Nat :=
  match fuel with
  | 0 => []
  | fuel + 1 =>
    if pc < code.length then
      pc :: startsAux fuel code (pc + 1 + pushLen (code.getD pc 0))
    else []

/-- The instruction start positions of a byte string. -/
def instrStarts (code : List Nat) : List Nat := startsAux code.length code 0

/-- The `*op == Opcode::JUMPDEST` comparison of `Code::jump_to`. -/
def isJumpdest : Opcode → Bool
  | .JUMPDEST => true
  | _ => false

/-- Rust `Code::jump_to` (`execution/code.rs` lines 102-120): the jump
succeeds (returning the new program counter) exactly when the counter
fits in a `usize`, indexes into the opcode array, and the entry there
is `some JUMPDEST`; otherwise the result is `none`, standing for
`CodeError::InvalidJumpdest`. -/
def jumpTo (ops : List (Option Opcode)) (counter : Nat) : Option Nat :=
  if counter < 2 ^ 64 then
    match (ops[counter]?).bind id with
    | some op => if isJumpdest op then some counter else none
    | none => none
  else none

/-- Position `p` lies strictly inside the immediate payload of a `PUSH`
instruction decoded at position `q`. -/
def insidePushData (code : List Nat) (q p : Nat) : Prop :=
  q ∈ instrStarts code ∧ 0x60 ≤ code.getD q 0 ∧ code.getD q 0 ≤ 0x7F ∧
  q < p ∧ p < q + 1 + pushLen (code.getD q 0) ∧ p < code.length

instance (code : List Nat) (q p : Nat) : Decidable (insidePushData code q p) := by
  unfold insidePushData; infer_instance

theorem opAux_length (fuel : Nat) (code : List Nat) :
    ∀ pc acc, (opAux fuel code pc acc).length = acc.length := by
  induction fuel with
  | zero => intro pc acc; rfl
  | succ n ih =>
    intro pc acc
    unfold opAux
    split
    · rw [ih]; exact List.length_set ..
    · rfl

theorem startsAux_ge (fuel : Nat) (code : List Nat) :
    ∀ pc q, q ∈ startsAux fuel code pc → pc ≤ q := by
  induction fuel with
  | zero => intro pc q h; simp [startsAux] at h
  | succ n ih =>
    intro pc q h
    unfold startsAux at h
    split at h
    · rcases List.mem_cons.mp h with rfl | h
      · exact Nat.le_refl _
      · exact Nat.le_trans (by omega) (ih _ _ h)
    · simp at h

theorem opAux_not_start (fuel : Nat) (code : List Nat) :
    ∀ pc acc p, p ∉ startsAux fuel code pc →
      (opAux fuel code pc acc)[p]? = acc[p]? := by
  induction fuel with
  | zero => intro pc acc p _; rfl
  | succ n ih =>
    intro pc acc p hp
    unfold opAux
    unfold startsAux at hp
    split
    · rename_i hlt
      simp only [hlt, if_true] at hp
      have h1 : p ≠ pc := fun h => hp (h ▸ List.mem_cons_self _ _)
      have h2 : p ∉ startsAux n code (pc + 1 + pushLen (code.getD pc 0)) :=
        fun h => hp (List.mem_cons_of_mem _ h)
      rw [ih _ _ _ h2, List.getElem?_set_ne (fun h => h1 h.symm)]
    · rfl

theorem inside_not_start (fuel : Nat) (code : List Nat) :
    ∀ pc q p, q ∈ startsAux fuel code pc → q < p →
      p < q + 1 + pushLen (code.getD q 0) → p ∉ startsAux fuel code pc := by
  induction fuel with
  | zero => intro pc q p hq _ _; simp [startsAux] at hq
  | succ n ih =>
    intro pc q p hq hqp hpn hp
    unfold startsAux at hq hp
    by_cases hlt : pc < code.length
    · rw [if_pos hlt] at hq hp
      rcases List.mem_cons.mp hq with rfl | hq
      · rcases List.mem_cons.mp hp with rfl | hp
        · omega
        · have := startsAux_ge n code _ _ hp
          omega
      · rcases List.mem_cons.mp hp with rfl | hp
        · have := startsAux_ge n code _ _ hq
          omega
        · exact ih _ _ _ hq hqp hpn hp
    · rw [if_neg hlt] at hq
      simp at hq

/-! ### Claim C7 -/

theorem isJumpdest_iff (op : Opcode) : isJumpdest op = true ↔ op = Opcode.JUMPDEST := by
  cases op <;> simp [isJumpdest]

theorem codeOps_length (code : List Nat) : (codeOps code).length = code.length := by
  unfold codeOps; rw [opAux_length]; exact List.length_replicate ..

/-- Claim C7.  `jump_to(counter)` succeeds exactly when `counter` is a
valid index of the bytecode whose decoded opcode-index entry is
`JUMPDEST`; and any position strictly inside the immediate data of a
decoded `PUSH` has an absent entry, so jumping to it always fails with
`InvalidJumpdest` — in particular a `0x5B` byte inside PUSH data is
never a valid jump target. -/
theorem c7_jumpdest_validation (code : List Nat) (hlen : code.length ≤ 2 ^ 64) :
    (∀ c, (jumpTo (codeOps code) c).isSome ↔
      c < code.length ∧ (codeOps code)[c]? = some (some Opcode.JUMPDEST)) ∧
    (∀ q p, insidePushData code q p →
      (codeOps code)[p]? = some none ∧ jumpTo (codeOps code) p = none) := by
  constructor
  · intro c
    constructor
    · intro h
      unfold jumpTo at h
      by_cases hc : c < 2 ^ 64
      · rw [if_pos hc] at h
        rcases hx : ((codeOps code)[c]?).bind id with _ | op
        · rw [hx] at h; simp at h
        · rw [hx] at h
          by_cases hj : isJumpdest op = true
          · have hop := (isJumpdest_iff op).mp hj
            subst hop
            rcases Option.bind_eq_some.mp hx with ⟨a, ha, hida⟩
            have haj : a = some Opcode.JUMPDEST := hida
            subst haj
            refine ⟨?_, ha⟩
            obtain ⟨hlt, -⟩ := List.getElem?_eq_some_iff.mp ha
            rw [codeOps_length] at hlt
            exact hlt
          · simp [hj] at h
      · rw [if_neg hc] at h; simp at h
    · rintro ⟨hc, hx⟩
      have hc64 : c < 2 ^ 64 := Nat.lt_of_lt_of_le hc hlen
      unfold jumpTo
      rw [if_pos hc64, hx]
      simp [isJumpdest]
  · intro q p hin
    obtain ⟨hq, _, _, hqp, hpn, hplen⟩ := hin
    have hnot : p ∉ instrStarts code :=
      inside_not_start code.length code 0 q p hq hqp hpn
    have hx : (codeOps code)[p]? =
        (List.replicate code.length (none : Option Opcode))[p]? :=
      opAux_not_start code.length code 0 _ p hnot
    have hrep : (List.replicate code.length (none : Option Opcode))[p]? = some none := by
      rw [List.getElem?_replicate]
      simp [hplen]
    refine ⟨hx.trans hrep, ?_⟩
    unfold jumpTo
    by_cases hp64 : p < 2 ^ 64
    · rw [if_pos hp64, hx.trans hrep]
      rfl
    · rw [if_neg hp64]

/-- Concrete bytecode for the C7 witness: `PUSH1 0x5B; STOP`.  The
`0x5B` at position 1 is PUSH immediate data, not a `JUMPDEST`. -/
def bytecodeW : List Nat := [0x60, 0x5B, 0x00]

/-- Witness for C7: on `PUSH1 0x5B; STOP`, position 1 (a `0x5B` byte
inside PUSH data) decodes to an absent entry and `jump_to(1)` fails. -/
theorem c7_witness :
    (codeOps bytecodeW)[1]? = some none ∧ jumpTo (codeOps bytecodeW) 1 = none :=
  (c7_jumpdest_validation bytecodeW (by decide)).2 0 1
    (by decide)

/-! ## Accounts and world state (`types/account.rs`, `types/state.rs`)

Addresses are 160-bit naturals; the state is a total function from
addresses to accounts, with `Account.empty` as the default (absent
entries of the Rust `HashMap` read as `EMPTY_ACCOUNT`). -/

/-- Rust `Account` (`types/account.rs`).  Storage is a total function with
default 0; `store` writes the value directly, which has the same
observable reads as the `HashMap` insert/remove of the source. -/
inductive Account where
  | empty
  | eoa (nonce : Nat) (balance : Nat)
  | contract (nonce : Nat) (balance : Nat) (code : List Nat) (storage : Nat → Nat)

/-- Keccak-256 of the empty byte string, the hard-coded code hash of
`ExternallyOwned` accounts. -/
def emptyKeccak : Nat :=
  0xc5d2460186f7233c927e7db2dcc703c0e500b653ca82273b7bfad8045d85a470

def Account.balance : Account → Nat
  | .empty => 0
  | .eoa _ b => b
  | .contract _ b _ _ => b

def Account.code : Account → List Nat
  | .empty => []
  | .eoa _ _ => []
  | .contract _ _ c _ => c

/-- Rust `Account::code_hash`, with the Keccak primitive passed in. -/
def Account.codeHash (kec : List Nat → Nat) : Account → Nat
  | .empty => 0
  | .eoa _ _ => emptyKeccak
  | .contract _ _ c _ => kec c

/-- Rust `Account::load`: reading a storage slot.  The source panics
(`panic!("impossible")`) on a non-contract account, modelled as `none`. -/
def Account.loadSlot : Account → Nat → Option Nat
  | .contract _ _ _ st, k => some (st k)
  | _, _ => none

/-- Rust `Account::store`: writing a storage slot of a contract; any other
account is left unchanged (the `_ => ()` arm of the source). -/
def Account.storeSlot : Account → Nat → Nat → Account
  | .contract n b c st, k, v => .contract n b c (fun x => if x = k then v else st x)
  | a, _, _ => a

/-- Rust `Account::increase_balance`: crediting an amount.  An `Empty`
account becomes externally owned; the checked addition fails (`none`,
the `TooMuchMoney` error) if the balance would leave the 256-bit range. -/
def Account.incBalance (amount : Nat) : Account → Option Account
  | .empty => some (.eoa 0 amount)
  | .eoa n b => if b + amount < wordMod then some (.eoa n (b + amount)) else none
  | .contract n b c st =>
      if b + amount < wordMod then some (.contract n (b + amount) c st) else none

/-- The world state: a total map from addresses to accounts. -/
def StateF : Type := Nat → Account

/-- Rust `State::update_account`: replace the account at one address. -/
def updAcct (s : StateF) (a : Nat) (acct : Account) : StateF :=
  fun x => if x = a then acct else s x

/-- Rust `State::send_eth` (`types/state.rs` lines 41-62).  The recipient is
credited; the sender debit is disabled in the source (its code is
commented out behind "⚠️ Do not check the sender amount because of the
invalid state data"), so the sender's account is left untouched. -/
def sendEth (s : StateF) (fromA toA amount : Nat) : Option StateF :=
  ((s toA).incBalance amount).map (updAcct s toA)

/-! ## Messages (`types/message.rs`) -/

/-- Rust `Message` (without the out-of-scope `Create` variant, which the
interpreter entry points leave as `todo!()`). -/
inductive Msg where
  | call (caller target gas value : Nat) (data : List Nat)
  | delegatecall (caller target delegate gas value : Nat) (data : List Nat)
  | staticcall (caller target gas : Nat) (data : List Nat)

def Msg.caller : Msg → Nat
  | .call c _ _ _ _ => c
  | .delegatecall c _ _ _ _ _ => c
  | .staticcall c _ _ _ => c

def Msg.target : Msg → Nat
  | .call _ t _ _ _ => t
  | .delegatecall _ t _ _ _ _ => t
  | .staticcall _ t _ _ => t

/-- Rust `Message::value`: a `Staticcall` has value 0 (`U256_DEFAULT`). -/
def Msg.value : Msg → Nat
  | .call _ _ _ v _ => v
  | .delegatecall _ _ _ _ v _ => v
  | .staticcall _ _ _ _ => 0

def Msg.data : Msg → List Nat
  | .call _ _ _ _ d => d
  | .delegatecall _ _ _ _ _ d => d
  | .staticcall _ _ _ d => d

/-- Rust `Message::is_staticcall`. -/
def Msg.isStatic : Msg → Bool
  | .staticcall _ _ _ _ => true
  | _ => false

/-! ## Logs and execution results -/

/-- A log entry: emitting address, 0-4 topics, and raw data bytes
(`types/log.rs`, flattened over the `Log0..Log4` variants). -/
structure LogE where
  address : Nat
  topics : List Nat
  data : List Nat

/-- The observable result of a completed frame:
`{ stack, return_data, logs, status }` as consumed by the call arms of
`execution/mod.rs` (`EVMResult` fields `return_data`, `logs`, `status`,
`stack`). -/
structure EVMRes where
  stack : List Nat
  returnData : List Nat
  logs : List LogE
  status : Bool

/-- Block- and transaction-level context (`Environment` without its
mutable state field, which lives in the frame). -/
structure BEnv where
  origin : Nat
  blockHashes : List Nat
  coinbase : Nat
  number : Nat
  basefee : Nat
  gaslimit : Nat
  gasprice : Nat
  time : Nat
  difficulty : Nat
  chainid : Nat

/-! ## Word-granular memory used by the interpreter dispatch

Modelled from the spec: the dispatch in `execution/mod.rs` calls a
`Memory` API (`load(offset, size)`, `store(offset, size, src)`,
`store_u256`, `store_u8`, `size()`) that is absent from the `memory.rs`
under `src/` (which has an older two-argument `store`).  Section 4.3 of
the specification defines it: `load` returns exactly `size` bytes and
grows the memory in 32-byte pages so that `offset + size ≤ len`, with
new bytes zero; `store` writes `size` bytes from `src`, zero-padding a
shorter `src`; `store_u256`/`store_u8` write the 32-byte big-endian
encoding, resp. one byte. -/

/-- The smallest multiple of 32 that is ≥ `n`. -/
def ceil32 (n : Nat) : Nat := ((n + 31) / 32) * 32

/-- Modelled from the spec: grow the memory in 32-byte pages until the
byte at `target - 1` is covered; new bytes read as zero. -/
def memExpandS (mem : List Nat) (target : Nat) : List Nat :=
  (List.range (max mem.length (ceil32 target))).map (fun i => mem.getD i 0)

/-- Modelled from the spec: `load(offset, size)` — exactly `size`
bytes, after growth.  Returns the bytes and the grown memory. -/
def memLoadS (mem : List Nat) (offset size : Nat) : List Nat × List Nat :=
  let m := memExpandS mem (offset + size)
  ((List.range size).map (fun i => m.getD (offset + i) 0), m)

/-- Modelled from the spec: `store(offset, size, src)` — write `size`
bytes from `src` (zero-padded) at `offset`, after growth. -/
def memStoreS (mem : List Nat) (offset size : Nat) (src : List Nat) : List Nat :=
  (List.range (max mem.length (ceil32 (offset + size)))).map
    (fun i => if offset ≤ i ∧ i < offset + size then src.getD (i - offset) 0 else mem.getD i 0)

/-- Big-endian 32-byte encoding of a word. -/
def beBytes32 (w : Nat) : List Nat :=
  (List.range 32).map (fun i => w >>> (8 * (31 - i)) % 256)

/-- Modelled from the spec: `store_u256`. -/
def memStoreWordS (mem : List Nat) (offset w : Nat) : List Nat :=
  memStoreS mem offset 32 (beBytes32 w)

/-- Modelled from the spec: `store_u8` (the caller in `execution/mod.rs`
saturates the popped word to a byte first). -/
def memStoreByteS (mem : List Nat) (offset b : Nat) : List Nat :=
  memStoreS mem offset 1 [b]

/-- Modelled from the spec: `load_u256` — 32 bytes big-endian. -/
def memLoadWordS (mem : List Nat) (offset : Nat) : Nat × List Nat :=
  let r := memLoadS mem offset 32
  (beBytesVal r.1, r.2)

/-! ## Calldata and code reads (`types/calldata.rs`, `Code::load`) -/

/-- Rust `Calldata::load` and `Code::load`: `size` bytes starting at
`offset`, reading zero past the end. -/
def cdLoad (data : List Nat) (offset size : Nat) : List Nat :=
  (List.range size).map (fun n => data.getD (offset + n) 0)

/-- Rust `Calldata::load_word`: a 32-byte big-endian word with zero padding
on the right. -/
def cdLoadWord (data : List Nat) (i : Nat) : Nat :=
  beBytesVal ((List.range 32).map (fun n => data.getD (i + n) 0))

/-! ## The evaluation stack (`execution/stack.rs`)

The stack is the list of live words, top first (the region
`arr[0..=top]` of the source reversed); capacity 1024. -/

inductive StackE where
  | overflow
  | underflow

/-- Rust `Stack::push`: fails with `StackOverflow` when 1024 words are
already live, leaving the stack unchanged. -/
def pushS (s : List Nat) (v : Nat) : Except StackE (List Nat) :=
  if 1024 ≤ s.length then .error .overflow else .ok (v :: s)

/-- A chain of `k` `Stack::pop` calls (`self.stack.pop()?` sequences in
the dispatch): pops succeed from the top until the stack empties; the
first component is the popped values in order (or `none` on
`NotEnoughValuesOnStack`), the second the remaining stack.  Elements
popped before the failing pop stay consumed, as in the source. -/
def popN : Nat → List Nat → Option (List Nat) × List Nat
  | 0, s => (some [], s)
  | _ + 1, [] => (none, [])
  | k + 1, a :: t =>
    let r := popN k t
    (r.1.map (a :: ·), r.2)

/-- Rust `Stack::dup(n)`: fails with underflow when fewer than `n` values
are live (stack untouched), otherwise pushes a copy of the `n`-th value
from the top (which can overflow). -/
def dupS (s : List Nat) (n : Nat) : Except StackE (List Nat) :=
  if s.length < n then .error .underflow else pushS s (s.getD (n - 1) 0)

/-- Rust `Stack::swap(n)`: fails with underflow when fewer than `n + 1`
values are live (stack untouched), otherwise exchanges the top with the
`(n+1)`-th value. -/
def swapS (s : List Nat) (n : Nat) : Except StackE (List Nat) :=
  if s.length < n + 1 then .error .underflow
  else .ok ((s.set 0 (s.getD n 0)).set n (s.getD 0 0))

/-! ## The interpreter frame and per-opcode step (`execution/mod.rs`)

A frame holds the mutable members of the `EVM` struct: the world state
(the mutable part of its environment), the message, the stack, the
memory, the decoded code with its program counter, the frame's logs,
and the cached result of the last completed sub-call.  A step returns
`none` when the Rust code would panic, and otherwise the updated frame
together with `none` (continue) or a `Halt` (the `self.result` written
before the iterator stops). -/

structure Frame where
  state : StateF
  msg : Msg
  stack : List Nat
  memory : List Nat
  code : List Nat
  ops : List (Option Opcode)
  pc : Nat
  logs : List LogE
  lastInner : Option EVMRes

inductive EVMErr where
  | revert (offset size : Nat)
  | stateModificationDisallowed
  | stackError (e : StackE)
  | codeError
  | memoryError

/-- A terminated frame: `Ok((offset, size))` for `STOP`/`RETURN`, or an
error. -/
inductive Halt where
  | ret (offset size : Nat)
  | err (e : EVMErr)

/-- Halt the frame with a stack error, the stack having been consumed
down to `s'`. -/
def stackErrHalt (f : Frame) (s' : List Nat) (e : StackE) :
    Option (Frame × Option Halt) :=
  some ({f with stack := s'}, some (.err (.stackError e)))

/-- Continue with an updated stack. -/
def contWith (f : Frame) (s' : List Nat) : Option (Frame × Option Halt) :=
  some ({f with stack := s'}, none)

/-- Push `v` on `s'` and continue, or halt with `StackOverflow`. -/
def pushCont (f : Frame) (s' : List Nat) (v : Nat) : Option (Frame × Option Halt) :=
  match pushS s' v with
  | .ok s2 => some ({f with stack := s2}, none)
  | .error e => stackErrHalt f s' e

/-- An arm popping two words and pushing `g a b` (`a` the top). -/
def binArm (f : Frame) (g : Nat → Nat → Nat) : Option (Frame × Option Halt) :=
  match popN 2 f.stack with
  | (some (a :: b :: _), s') => pushCont f s' (g a b)
  | (_, s') => stackErrHalt f s' .underflow

/-- An arm popping one word and pushing `g a`. -/
def unArm (f : Frame) (g : Nat → Nat) : Option (Frame × Option Halt) :=
  match popN 1 f.stack with
  | (some (a :: _), s') => pushCont f s' (g a)
  | (_, s') => stackErrHalt f s' .underflow

/-- An arm popping three words and pushing `g a b c`. -/
def triArm (f : Frame) (g : Nat → Nat → Nat → Nat) : Option (Frame × Option Halt) :=
  match popN 3 f.stack with
  | (some (a :: b :: c :: _), s') => pushCont f s' (g a b c)
  | (_, s') => stackErrHalt f s' .underflow

/-- An arm pushing a value on the unchanged stack. -/
def pushArm (f : Frame) (v : Nat) : Option (Frame × Option Halt) :=
  pushCont f f.stack v

/-- Rust `Int256` `lt` (`types/int256.rs` lines 71-77). -/
def int256Lt (a b : Nat) : Bool :=
  match int256IsNeg a, int256IsNeg b with
  | true, false => true
  | false, true => false
  | _, _ => decide (a < b)

/-- Rust `Int256` `gt` (`types/int256.rs` lines 79-85). -/
def int256Gt (a b : Nat) : Bool :=
  match int256IsNeg a, int256IsNeg b with
  | false, true => true
  | true, false => false
  | _, _ => decide (a > b)

/-- The common tail of the three call arms: write the child's return
data into `memory[ret_offset..ret_offset+ret_size]`, merge the child's
logs into the parent only when `mergeLogs` is set and the child
succeeded (the `STATICCALL` arm never merges), cache the child result
in `last_inner_call`, update the shared state, and push the 1/0 status
word. -/
def childFinish (f : Frame) (s' : List Nat) (ro rs : Nat) (mergeLogs : Bool)
    (res : EVMRes) (st' : StateF) : Option (Frame × Option Halt) :=
  pushCont { f with
    memory := memStoreS f.memory ro rs res.returnData,
    logs := if mergeLogs ∧ res.status then f.logs ++ res.logs else f.logs,
    lastInner := some res,
    state := st' } s' (if res.status then 1 else 0)

/-- One opcode of the dispatch of `Iterator for &mut EVM::next`
(`execution/mod.rs` lines 35-1328).  `kec` is the opaque Keccak-256
collaborator, `B` the block environment, and `cf` the sub-interpreter
used by the `CALL`/`DELEGATECALL`/`STATICCALL` arms to run a child
frame to completion (`EVM::new` followed by `EVM::execute`). -/
def stepOp (kec : List Nat → Nat) (B : BEnv)
    (cf : StateF → Msg → Option (EVMRes × StateF))
    (f : Frame) (op : Opcode) : Option (Frame × Option Halt) :=
  match op with
  | .STOP => some (f, some (.ret 0 0))
  | .ADD => binArm f (fun a b => (a + b) % wordMod)
  | .MUL => binArm f (fun a b => (a * b) % wordMod)
  | .SUB => binArm f (fun a b => ((a + wordMod) - b % wordMod) % wordMod)
  | .DIV => binArm f (fun a b => if b = 0 then b else a / b)
  | .SDIV => binArm f int256Div
  | .MOD => binArm f (fun a b => if b = 0 then b else a % b)
  | .SMOD => binArm f int256Rem
  | .ADDMOD => triArm f (fun a b n => if n = 0 then 0 else (a + b) % n)
  | .MULMOD => triArm f (fun a b n => if n = 0 then 0 else (a * b) % n)
  | .EXP => binArm f (fun a e => a ^ e % wordMod)
  | .SIGNEXTEND => binArm f (fun b x => intNSignExtend x (min b 31))
  | .LT => binArm f (fun a b => if a < b then 1 else 0)
  | .GT => binArm f (fun a b => if b < a then 1 else 0)
  | .SLT => binArm f (fun a b => if int256Lt a b then 1 else 0)
  | .SGT => binArm f (fun a b => if int256Gt a b then 1 else 0)
  | .EQ => binArm f (fun a b => if a = b then 1 else 0)
  | .ISZERO => unArm f (fun a => if a = 0 then 1 else 0)
  | .AND => binArm f (fun a b => a &&& b)
  | .OR => binArm f (fun a b => a ||| b)
  | .XOR => binArm f (fun a b => a ^^^ b)
  | .NOT => unArm f (fun a => wordMod - 1 - a % wordMod)
  | .BYTE => binArm f (fun i x => if 31 < i then 0 else x >>> (8 * (31 - i)) % 256)
  | .SHL => binArm f (fun sh v => if 256 ≤ usat sh then 0 else (v <<< usat sh) % wordMod)
  | .SHR => binArm f (fun sh v => v >>> usat sh)
  | .SAR => binArm f sarCode
  | .SHA3 =>
    match popN 2 f.stack with
    | (some (o :: sz :: _), s') =>
      let r := memLoadS f.memory (usat o) (usat sz)
      pushCont {f with memory := r.2} s' (kec r.1)
    | (_, s') => stackErrHalt f s' .underflow
  | .ADDRESS => pushArm f f.msg.target
  | .BALANCE => unArm f (fun a => (f.state (u2a a)).balance)
  | .ORIGIN => pushArm f B.origin
  | .CALLER => pushArm f f.msg.caller
  | .CALLVALUE => pushArm f f.msg.value
  | .CALLDATALOAD => unArm f (fun i => cdLoadWord f.msg.data (usat i))
  | .CALLDATASIZE => pushArm f f.msg.data.length
  | .CALLDATACOPY =>
    match popN 3 f.stack with
    | (some (d :: o :: sz :: _), s') =>
      some ({ f with
        stack := s',
        memory := memStoreS f.memory (usat d) (usat sz)
          (cdLoad f.msg.data (usat o) (usat sz)) }, none)
    | (_, s') => stackErrHalt f s' .underflow
  | .CODESIZE => pushArm f f.code.length
  | .CODECOPY =>
    match popN 3 f.stack with
    | (some (d :: o :: sz :: _), s') =>
      some ({ f with
        stack := s',
        memory := memStoreS f.memory (usat d) (usat sz)
          (cdLoad f.code (usat o) (usat sz)) }, none)
    | (_, s') => stackErrHalt f s' .underflow
  | .GASPRICE => pushArm f B.gasprice
  | .EXTCODESIZE => unArm f (fun a => ((f.state (u2a a)).code).length)
  | .EXTCODECOPY =>
    match popN 4 f.stack with
    | (some (a :: d :: o :: sz :: _), s') =>
      some ({ f with
        stack := s',
        memory := memStoreS f.memory (usat d) (usat sz)
          (cdLoad ((f.state (u2a a)).code) (usat o) (usat sz)) }, none)
    | (_, s') => stackErrHalt f s' .underflow
  | .RETURNDATASIZE =>
    pushArm f (match f.lastInner with | some c => c.returnData.length | none => 0)
  | .RETURNDATACOPY =>
    match popN 3 f.stack with
    | (some (d :: o :: sz :: _), s') =>
      match f.lastInner with
      | some c =>
        if usat o + usat sz > c.returnData.length then
          some ({f with stack := s'}, some (.err .memoryError))
        else
          some ({ f with
            stack := s',
            memory := memStoreS f.memory (usat d) (usat sz) c.returnData }, none)
      | none => some ({f with stack := s'}, none)
    | (_, s') => stackErrHalt f s' .underflow
  | .EXTCODEHASH => unArm f (fun a => Account.codeHash kec (f.state (u2a a)))
  | .BLOCKHASH => unArm f (fun n => B.blockHashes.getD (usat n) 0)
  | .COINBASE => pushArm f B.coinbase
  | .TIMESTAMP => pushArm f B.time
  | .NUMBER => pushArm f B.number
  | .DIFFICULTY => pushArm f B.difficulty
  | .GASLIMIT => pushArm f B.gaslimit
  | .CHAINID => pushArm f B.chainid
  | .BASEFEE => pushArm f B.basefee
  | .SELFBALANCE => pushArm f (f.state (u2a f.msg.target)).balance
  | .POP =>
    match popN 1 f.stack with
    | (some _, s') => contWith f s'
    | (none, s') => stackErrHalt f s' .underflow
  | .MLOAD =>
    match popN 1 f.stack with
    | (some (o :: _), s') =>
      let r := memLoadWordS f.memory (usat o)
      pushCont {f with memory := r.2} s' r.1
    | (_, s') => stackErrHalt f s' .underflow
  | .MSTORE =>
    match popN 2 f.stack with
    | (some (o :: b :: _), s') =>
      some ({f with stack := s', memory := memStoreWordS f.memory (usat o) b}, none)
    | (_, s') => stackErrHalt f s' .underflow
  | .MSTORE8 =>
    match popN 2 f.stack with
    | (some (o :: b :: _), s') =>
      some ({ f with
        stack := s',
        memory := memStoreByteS f.memory (usat o) (min b 255) }, none)
    | (_, s') => stackErrHalt f s' .underflow
  | .SLOAD =>
    match popN 1 f.stack with
    | (some (k :: _), s') =>
      match (f.state (u2a f.msg.target)).loadSlot k with
      | some v => pushCont f s' v
      | none => none
    | (_, s') => stackErrHalt f s' .underflow
  | .SSTORE =>
    if f.msg.isStatic then some (f, some (.err .stateModificationDisallowed))
    else
      match popN 2 f.stack with
      | (some (k :: v :: _), s') =>
        some ({ f with
          stack := s',
          state := updAcct f.state (u2a f.msg.target)
            ((f.state (u2a f.msg.target)).storeSlot k v) }, none)
      | (_, s') => stackErrHalt f s' .underflow
  | .JUMP =>
    match popN 1 f.stack with
    | (some (c :: _), s') =>
      match jumpTo f.ops c with
      | some pc' => some ({f with stack := s', pc := pc'}, none)
      | none => some ({f with stack := s'}, some (.err .codeError))
    | (_, s') => stackErrHalt f s' .underflow
  | .JUMPI =>
    match popN 2 f.stack with
    | (some (c :: b :: _), s') =>
      if b ≠ 0 then
        match jumpTo f.ops c with
        | some pc' => some ({f with stack := s', pc := pc'}, none)
        | none => some ({f with stack := s'}, some (.err .codeError))
      else contWith f s'
    | (_, s') => stackErrHalt f s' .underflow
  | .PC => pushArm f (f.pc - 1)
  | .MSIZE => pushArm f f.memory.length
  | .GAS => pushArm f (wordMod - 1)
  | .JUMPDEST => some (f, none)
  | .PUSH n => pushArm f n
  | .DUP n =>
    match dupS f.stack n with
    | .ok s2 => some ({f with stack := s2}, none)
    | .error e => some (f, some (.err (.stackError e)))
  | .SWAP n =>
    match swapS f.stack n with
    | .ok s2 => some ({f with stack := s2}, none)
    | .error e => some (f, some (.err (.stackError e)))
  | .LOG n =>
    if f.msg.isStatic then some (f, some (.err .stateModificationDisallowed))
    else
      match popN 2 f.stack with
      | (some (o :: sz :: _), s') =>
        let r := memLoadS f.memory (usat o) (usat sz)
        match popN n s' with
        | (some topics, s'') =>
          some ({ f with
            stack := s'',
            memory := r.2,
            logs := f.logs ++ [⟨f.msg.target, topics, r.1⟩] }, none)
        | (none, s'') => stackErrHalt {f with memory := r.2} s'' .underflow
      | (_, s') => stackErrHalt f s' .underflow
  | .CALL =>
    if f.msg.isStatic then some (f, some (.err .stateModificationDisallowed))
    else
      match popN 7 f.stack with
      | (some (gas :: addr :: value :: ao :: asz :: ro :: rs :: _), s') =>
        let r := memLoadS f.memory (usat ao) (usat asz)
        match cf f.state (Msg.call f.msg.target (u2a addr) gas value r.1) with
        | some (res, st') =>
          childFinish {f with memory := r.2} s' (usat ro) (usat rs) true res st'
        | none => none
      | (_, s') => stackErrHalt f s' .underflow
  | .RETURN =>
    match popN 2 f.stack with
    | (some (o :: sz :: _), s') => some ({f with stack := s'}, some (.ret o sz))
    | (_, s') => stackErrHalt f s' .underflow
  | .DELEGATECALL =>
    if f.msg.isStatic then some (f, some (.err .stateModificationDisallowed))
    else
      match popN 6 f.stack with
      | (some (gas :: addr :: ao :: asz :: ro :: rs :: _), s') =>
        let r := memLoadS f.memory (usat ao) (usat asz)
        match cf f.state
            (Msg.delegatecall f.msg.caller f.msg.target (u2a addr) gas f.msg.value r.1) with
        | some (res, st') =>
          childFinish {f with memory := r.2} s' (usat ro) (usat rs) true res st'
        | none => none
      | (_, s') => stackErrHalt f s' .underflow
  | .STATICCALL =>
    match popN 6 f.stack with
    | (some (gas :: addr :: ao :: asz :: ro :: rs :: _), s') =>
      let r := memLoadS f.memory (usat ao) (usat asz)
      match cf f.state (Msg.staticcall f.msg.target (u2a addr) gas r.1) with
      | some (res, st') =>
        childFinish {f with memory := r.2} s' (usat ro) (usat rs) false res st'
      | none => none
    | (_, s') => stackErrHalt f s' .underflow
  | .REVERT =>
    match popN 2 f.stack with
    | (some (o :: sz :: _), s') => some ({f with stack := s'}, some (.err (.revert o sz)))
    | (_, s') => stackErrHalt f s' .underflow
  | .INVALID => some (f, some (.err (.revert 0 0)))

/-! ## Fetching the next opcode (`Iterator for Code`, `execution/code.rs`
lines 256-290)

`next()` walks the opcode index from `pc`, skipping absent entries
(PUSH immediate positions) and reading an implicit `STOP` past the end;
`pc` ends one past the position of the returned opcode.  The walk is
bounded by `ops.length - pc + 1` iterations. -/

def nextOpA (fuel : Nat) (ops : List (Option Opcode)) (pc : Nat) : Opcode × Nat :=
  match fuel with
  | 0 => (.STOP, pc + 1)
  | fuel + 1 =>
    if pc < ops.length then
      match ops.getD pc none with
      | some o => (o, pc + 1)
      | none => nextOpA fuel ops (pc + 1)
    else (.STOP, pc + 1)

def nextOp (ops : List (Option Opcode)) (pc : Nat) : Opcode × Nat :=
  nextOpA (ops.length + 1 - pc) ops pc

/-- One full iterator step: fetch the next opcode (advancing `pc`) and
dispatch it. -/
def stepF (kec : List Nat → Nat) (B : BEnv)
    (cf : StateF → Msg → Option (EVMRes × StateF)) (f : Frame) :
    Option (Frame × Option Halt) :=
  let n := nextOp f.ops f.pc
  stepOp kec B cf { f with pc := n.2 } n.1

/-- Modelled from the spec: the final `EVM::new` for the
`Delegatecall`/`Staticcall` message kinds, which the `EVM::new` present
under `src/` (`execution/evm.rs` lines 32-49) leaves as `todo!()`
although the dispatch of `execution/mod.rs` constructs and runs such
frames.  A frame starts with an empty stack, empty memory, and the
decoded code of the executing account: the target's code for a `Call`
and a `Staticcall`, the delegate's for a `Delegatecall`. -/
def mkFrame (s : StateF) (m : Msg) : Frame :=
  let codeBytes :=
    match m with
    | .call _ t _ _ _ => (s (u2a t)).code
    | .delegatecall _ _ d _ _ _ => (s (u2a d)).code
    | .staticcall _ t _ _ => (s (u2a t)).code
  { state := s, msg := m, stack := [], memory := [], code := codeBytes,
    ops := codeOps codeBytes, pc := 0, logs := [], lastInner := none }

/-- Modelled from the spec: the value transfer performed on frame entry
by the final `EVM::execute` (compare the stale `EVM::execute`,
`execution/evm.rs` lines 1219-1239, which calls `State::send_eth`).
A `Call` with nonzero value credits the target through `send_eth`
(whose sender debit is disabled); a `Staticcall` carries value 0, so no
transfer happens; and for `Delegatecall` the spec says "no fresh
transfer" — the child merely sees the parent's `CALLVALUE`.  `none` is
the panic of the `.expect("not handled")` on a transfer error. -/
def entryTransfer (s : StateF) : Msg → Option StateF
  | .call c t _ v _ => if v ≠ 0 then sendEth s (u2a c) (u2a t) v else some s
  | .delegatecall _ _ _ _ _ _ => some s
  | .staticcall _ _ _ _ => some s

/-- Return data of a halted frame: `memory.load(offset, size)` for
`STOP`/`RETURN` and `REVERT`, empty for every other error (modelled
from the spec's description of `ExecutionResult.return_data`). -/
def haltData (mem : List Nat) : Halt → List Nat
  | .ret o sz => (memLoadS mem (usat o) (usat sz)).1
  | .err (.revert o sz) => (memLoadS mem (usat o) (usat sz)).1
  | .err _ => []

/-- Modelled from the spec: the final `EVM::execute` (snapshot, value
transfer, run loop, restore on error), which is absent from `src/`,
together with the run loop, by recursion on a step budget.

`goEVM kec B n` returns the pair of
* the loop (`while let Some(_) = iter.next() {}`): run a frame until it
  halts, `none` when the budget is exhausted or the code panics; and
* `EVM::execute` for sub-frames of strictly smaller budget.

Modelled from the spec for the execute part, whose final version is
absent from `src/` (the `EVM::execute` present there still carries
`// Restore previous state snapshot if the call reverted. // TODO`
while its caller, the dispatch of `execution/mod.rs`, consumes an
`EVMResult` with `return_data`/`logs`/`status` fields): on entry the
state is snapshotted and the value transfer performed; if the frame
halts with `Ok` the mutated state persists, the status is 1 and the
frame's logs propagate; if it halts with any error the state reverts to
the snapshot, the logs are discarded and the status is 0. -/
def goEVM (kec : List Nat → Nat) (B : BEnv) :
    Nat → (Frame → Option (Frame × Halt)) × (StateF → Msg → Option (EVMRes × StateF))
  | 0 => (fun _ => none, fun _ _ => none)
  | n + 1 =>
    let prev := goEVM kec B n
    ( fun f =>
        match stepF kec B prev.2 f with
        | none => none
        | some (f', some h) => some (f', h)
        | some (f', none) => prev.1 f',
      fun s m =>
        match entryTransfer s m with
        | none => none
        | some s1 =>
          match prev.1 (mkFrame s1 m) with
          | none => none
          | some (f', .ret o sz) =>
            some ({ stack := f'.stack, returnData := (memLoadS f'.memory (usat o) (usat sz)).1,
                    logs := f'.logs, status := true }, f'.state)
          | some (f', .err e) =>
            some ({ stack := f'.stack, returnData := haltData f'.memory (.err e),
                    logs := [], status := false }, s) )

/-- Run a frame to a halt within `n` steps. -/
def runF (kec : List Nat → Nat) (B : BEnv) (n : Nat) (f : Frame) :
    Option (Frame × Halt) := (goEVM kec B n).1 f

/-- `EVM::execute` with a step budget of `n`: process a message against
a state, returning the frame result and the updated state. -/
def execF (kec : List Nat → Nat) (B : BEnv) (n : Nat) (s : StateF) (m : Msg) :
    Option (EVMRes × StateF) := (goEVM kec B n).2 s m

/-! ## Helper lemmas -/

theorem popN_short (k : Nat) (s : List Nat) (h : s.length < k) :
    popN k s = (none, []) := by
  induction k generalizing s with
  | zero => omega
  | succ k ih =>
    cases s with
    | nil => rfl
    | cons a t =>
      simp only [popN]
      rw [ih t (by simp at h; omega)]
      rfl

theorem popN1 (a : Nat) (t : List Nat) : popN 1 (a :: t) = (some [a], t) := rfl

theorem popN2 (a b : Nat) (t : List Nat) :
    popN 2 (a :: b :: t) = (some [a, b], t) := rfl

theorem popN3 (a b c : Nat) (t : List Nat) :
    popN 3 (a :: b :: c :: t) = (some [a, b, c], t) := rfl

theorem popN6 (a b c d e g : Nat) (t : List Nat) :
    popN 6 (a :: b :: c :: d :: e :: g :: t) = (some [a, b, c, d, e, g], t) := rfl

theorem popN7 (a b c d e g h : Nat) (t : List Nat) :
    popN 7 (a :: b :: c :: d :: e :: g :: h :: t) = (some [a, b, c, d, e, g, h], t) := rfl

theorem le_ceil32 (t : Nat) : t ≤ ceil32 t := by
  have h1 := Nat.div_add_mod (t + 31) 32
  have h2 := Nat.mod_lt (t + 31) (show 0 < 32 by norm_num)
  unfold ceil32
  omega

/-- Shared zero block environment for concrete witnesses. -/
def benvZ : BEnv := ⟨0, [], 0, 0, 0, 0, 0, 0, 0, 0⟩

/-- Shared trivial Keccak collaborator for concrete witnesses. -/
def kecZ : List Nat → Nat := fun _ => 0

/-- Shared inert sub-interpreter for concrete witnesses of single-step
facts that never reach a call arm. -/
def cfZ : StateF → Msg → Option (EVMRes × StateF) := fun _ _ => none

/-! ### Claim C3 -/

/-- Concrete two-account state for the C3 counterexample: caller 1 owns
50 wei, recipient 2 owns 10 wei. -/
def stC3 : StateF := fun a =>
  if a = 1 then .eoa 0 50 else if a = 2 then .eoa 0 10 else .empty

/-- Claim C3, counterexample.  Transferring 7 wei from address 1 to
address 2 through `State::send_eth` credits the recipient (10 → 17) but
leaves the caller's balance at 50: the claimed debit to 43 does not
happen, because the debit code in `send_eth` is commented out. -/
theorem c3_counterexample :
    (sendEth stC3 1 2 7).map (fun s => ((s 1).balance, (s 2).balance)) =
      some (50, 17) ∧
    ¬ (sendEth stC3 1 2 7).map (fun s => ((s 1).balance, (s 2).balance)) =
      some (50 - 7, 17) := by
  exact ⟨rfl, by decide⟩

/-- Claim C3, amended.  On frame entry with a nonzero value the transfer
credits the recipient's balance by `value` but leaves the caller's
account untouched (the sender debit is disabled in `send_eth`); it
still happens before the first opcode executes (a failing transfer
aborts `execute` before any step runs); and for a `Delegatecall` or
`Staticcall` frame no fresh transfer occurs at all. -/
theorem c3_amended :
    (∀ (s : StateF) (a b v : Nat) (s' : StateF), a ≠ b →
      sendEth s a b v = some s' →
      s' a = s a ∧ (s' b).balance = (s b).balance + v) ∧
    (∀ (s : StateF) (c t d g v : Nat) (dat : List Nat),
      entryTransfer s (.delegatecall c t d g v dat) = some s) ∧
    (∀ (s : StateF) (c t g : Nat) (dat : List Nat),
      entryTransfer s (.staticcall c t g dat) = some s) ∧
    (∀ (kec : List Nat → Nat) (B : BEnv) (n : Nat) (s : StateF) (m : Msg),
      entryTransfer s m = none → execF kec B n s m = none) := by
  refine ⟨?_, fun _ _ _ _ _ _ _ => rfl, fun _ _ _ _ _ => rfl, ?_⟩
  · intro s a b v s' hab h
    unfold sendEth at h
    rcases hinc : (s b).incBalance v with _ | acct <;> rw [hinc] at h
    · simp at h
    · simp only [Option.map_some'] at h
      obtain rfl : updAcct s b acct = s' := by
        injection h
      constructor
      · simp [updAcct, hab]
      · have hbal : acct.balance = (s b).balance + v := by
          rcases hsb : s b with _ | ⟨n0, b0⟩ | ⟨n0, b0, c0, st0⟩ <;>
            rw [hsb] at hinc <;> simp only [Account.incBalance] at hinc
          · injection hinc with h1
            subst h1
            simp [Account.balance]
          · split at hinc
            · injection hinc with h1
              subst h1
              simp [Account.balance]
            · exact absurd hinc (by simp)
          · split at hinc
            · injection hinc with h1
              subst h1
              simp [Account.balance]
            · exact absurd hinc (by simp)
        simp [updAcct, hbal]
  · intro kec B n s m h
    cases n with
    | zero => rfl
    | succ n => simp [execF, goEVM, h]

/-- Witness for C3: applying the amended theorem at the concrete state
`stC3`, transfer of 7 from 1 to 2 (the hypotheses hold by computation). -/
theorem c3_witness :
    (updAcct stC3 2 (Account.eoa 0 17)) 1 = stC3 1 ∧
    ((updAcct stC3 2 (Account.eoa 0 17)) 2).balance = (stC3 2).balance + 7 :=
  c3_amended.1 stC3 1 2 7 (updAcct stC3 2 (Account.eoa 0 17)) (by decide) rfl

/-! ### Claim C1 -/

/-- Claim C1.  Snapshot and revert.  First part: whenever a frame run by
`EVM::execute` terminates with any error (status 0) — stack, code or
memory error, `StateModificationDisallowed`, `REVERT` or `INVALID` —
the world state returned to the caller is exactly the state at the
frame's entry (the snapshot; every storage write and balance change of
the frame, its value transfer included, is undone) and the frame's log
list comes back empty.  Second part: the `CALL`/`DELEGATECALL`/
`STATICCALL` arms of the dispatch leave the parent's log list untouched
whenever the child reports failure, so no log emitted inside a failing
frame reaches the parent. -/
theorem c1_snapshot_revert :
    (∀ (kec : List Nat → Nat) (B : BEnv) (n : Nat) (s : StateF) (m : Msg)
        (r : EVMRes) (s' : StateF),
      execF kec B n s m = some (r, s') → r.status = false →
      s' = s ∧ r.logs = []) ∧
    (∀ (kec : List Nat → Nat) (B : BEnv)
        (cf : StateF → Msg → Option (EVMRes × StateF)) (op : Opcode)
        (f f' : Frame) (h? : Option Halt),
      (∀ s m r st', cf s m = some (r, st') → r.status = false) →
      (op = .CALL ∨ op = .DELEGATECALL ∨ op = .STATICCALL) →
      stepOp kec B cf f op = some (f', h?) → f'.logs = f.logs) := by
  constructor
  · intro kec B n s m r s' h hst
    cases n with
    | zero => simp [execF, goEVM] at h
    | succ n =>
      simp only [execF, goEVM] at h
      split at h
      · exact absurd h (by simp)
      · split at h
        · exact absurd h (by simp)
        · simp only [Option.some_inj, Prod.mk.injEq] at h
          obtain ⟨hr, _⟩ := h
          rw [← hr] at hst
          simp at hst
        · simp only [Option.some_inj, Prod.mk.injEq] at h
          obtain ⟨hr, hs⟩ := h
          exact ⟨hs.symm, by rw [← hr]⟩
  · intro kec B cf op f f' h? hall hop hstep
    rcases hop with rfl | rfl | rfl <;>
    · simp only [stepOp] at hstep
      repeat' split at hstep
      all_goals
        first
        | exact Option.noConfusion hstep
        | (simp only [stackErrHalt, Option.some_inj, Prod.mk.injEq] at hstep
           obtain ⟨hf, -⟩ := hstep
           rw [← hf])
        | (rename_i res st' heq
           have hres : res.status = false := hall _ _ _ _ heq
           simp only [childFinish, pushCont] at hstep
           split at hstep <;>
             (simp only [stackErrHalt, Option.some_inj, Prod.mk.injEq] at hstep
              obtain ⟨hf, -⟩ := hstep
              rw [← hf]
              simp [hres]))

/-- Concrete state for the C1 witness: a contract at address 2 whose
code is the single byte `0xFE` (`INVALID`). -/
def stC1 : StateF := fun a =>
  if a = 2 then .contract 0 0 [0xFE] (fun _ => 0) else .empty

def msgC1 : Msg := .call 1 2 0 0 []

def resC1 : EVMRes := { stack := [], returnData := [], logs := [], status := false }

/-- Witness for C1: running the `INVALID` contract terminates with
status 0, the returned state is exactly the entry state `stC1`, and the
result's log list is empty. -/
theorem c1_witness :
    execF kecZ benvZ 3 stC1 msgC1 = some (resC1, stC1) ∧ resC1.logs = [] :=
  ⟨rfl, (c1_snapshot_revert.1 kecZ benvZ 3 stC1 msgC1 resC1 stC1 rfl rfl).2⟩

/-! ### Claim C2 -/

/-- Claim C2.  The `DELEGATECALL` (0xF4) and `STATICCALL` (0xFA) opcodes:
the two bytes decode to their opcodes rather than to `INVALID`; a frame
can be constructed for a `Delegatecall` message (executing the
delegate's code) and for a `Staticcall` message (executing the
target's code); and executing either opcode pops its six arguments,
builds the corresponding child message, runs a child frame to
completion through the sub-interpreter, writes the returned bytes into
`memory[ret_offset..ret_offset+ret_size]`, caches the child result, and
pushes a 1/0 status word. -/
theorem c2_delegatecall_staticcall :
    (decodeByte 0xF4 0 = Opcode.DELEGATECALL ∧ decodeByte 0xFA 0 = Opcode.STATICCALL ∧
      decodeByte 0xF4 0 ≠ Opcode.INVALID ∧ decodeByte 0xFA 0 ≠ Opcode.INVALID) ∧
    (∀ (s : StateF) (c t d g v : Nat) (dat : List Nat),
      (mkFrame s (.delegatecall c t d g v dat)).code = (s (u2a d)).code ∧
      (mkFrame s (.delegatecall c t d g v dat)).stack = []) ∧
    (∀ (s : StateF) (c t g : Nat) (dat : List Nat),
      (mkFrame s (.staticcall c t g dat)).code = (s (u2a t)).code ∧
      (mkFrame s (.staticcall c t g dat)).stack = []) ∧
    (∀ (kec : List Nat → Nat) (B : BEnv) (n : Nat) (f : Frame)
        (gas addr ao asz ro rs : Nat) (rest : List Nat) (res : EVMRes) (st' : StateF),
      f.stack = gas :: addr :: ao :: asz :: ro :: rs :: rest →
      f.msg.isStatic = false → rest.length < 1024 →
      execF kec B n f.state
        (.delegatecall f.msg.caller f.msg.target (u2a addr) gas f.msg.value
          (memLoadS f.memory (usat ao) (usat asz)).1) = some (res, st') →
      ∃ f', stepOp kec B (execF kec B n) f .DELEGATECALL = some (f', none) ∧
        f'.stack = (if res.status then 1 else 0) :: rest ∧
        f'.memory = memStoreS (memLoadS f.memory (usat ao) (usat asz)).2
          (usat ro) (usat rs) res.returnData ∧
        f'.lastInner = some res ∧ f'.state = st') ∧
    (∀ (kec : List Nat → Nat) (B : BEnv) (n : Nat) (f : Frame)
        (gas addr ao asz ro rs : Nat) (rest : List Nat) (res : EVMRes) (st' : StateF),
      f.stack = gas :: addr :: ao :: asz :: ro :: rs :: rest →
      rest.length < 1024 →
      execF kec B n f.state
        (.staticcall f.msg.target (u2a addr) gas
          (memLoadS f.memory (usat ao) (usat asz)).1) = some (res, st') →
      ∃ f', stepOp kec B (execF kec B n) f .STATICCALL = some (f', none) ∧
        f'.stack = (if res.status then 1 else 0) :: rest ∧
        f'.memory = memStoreS (memLoadS f.memory (usat ao) (usat asz)).2
          (usat ro) (usat rs) res.returnData ∧
        f'.lastInner = some res ∧ f'.state = st') := by
  refine ⟨⟨rfl, rfl, fun h => Opcode.noConfusion h, fun h => Opcode.noConfusion h⟩,
    fun _ _ _ _ _ _ _ => ⟨rfl, rfl⟩, fun _ _ _ _ _ => ⟨rfl, rfl⟩, ?_, ?_⟩
  · intro kec B n f gas addr ao asz ro rs rest res st' hstack hstat hlen hcf
    have h1024 : ¬ 1024 ≤ rest.length := by omega
    have hstep : stepOp kec B (execF kec B n) f .DELEGATECALL =
        some ({ f with
          stack := (if res.status then 1 else 0) :: rest,
          memory := memStoreS (memLoadS f.memory (usat ao) (usat asz)).2
            (usat ro) (usat rs) res.returnData,
          logs := if res.status then f.logs ++ res.logs else f.logs,
          lastInner := some res,
          state := st' }, none) := by
      simp only [stepOp, hstat, Bool.false_eq_true, if_false, hstack, popN6, hcf,
        childFinish, pushCont, pushS, h1024, ite_false, true_and]
    exact ⟨_, hstep, rfl, rfl, rfl, rfl⟩
  · intro kec B n f gas addr ao asz ro rs rest res st' hstack hlen hcf
    have h1024 : ¬ 1024 ≤ rest.length := by omega
    have hstep : stepOp kec B (execF kec B n) f .STATICCALL =
        some ({ f with
          stack := (if res.status then 1 else 0) :: rest,
          memory := memStoreS (memLoadS f.memory (usat ao) (usat asz)).2
            (usat ro) (usat rs) res.returnData,
          lastInner := some res,
          state := st' }, none) := by
      simp only [stepOp, hstack, popN6, hcf, childFinish, pushCont, pushS, h1024,
        ite_false, Bool.false_eq_true, false_and, if_false]
    exact ⟨_, hstep, rfl, rfl, rfl, rfl⟩

/-- Concrete frame for the C2 witness: six call arguments on the stack
(`gas = 0`, `address = 3`, zero offsets and sizes); the delegate
account at address 3 is empty, so the child frame stops at once with
status 1. -/
def stC2 : StateF := fun _ => .empty

def frameC2 : Frame :=
  { state := stC2, msg := .call 1 2 0 0 [], stack := [0, 3, 0, 0, 0, 0],
    memory := [], code := [], ops := [], pc := 0, logs := [], lastInner := none }

def resC2 : EVMRes := { stack := [], returnData := [], logs := [], status := true }

/-- Witness for C2: both call opcodes execute to a continuing step on
the concrete frame. -/
theorem c2_witness :
    (stepOp kecZ benvZ (execF kecZ benvZ 2) frameC2 .DELEGATECALL).isSome = true ∧
    (stepOp kecZ benvZ (execF kecZ benvZ 2) frameC2 .STATICCALL).isSome = true := by
  constructor
  · obtain ⟨f', h, -, -, -, -⟩ :=
      c2_delegatecall_staticcall.2.2.2.1 kecZ benvZ 2 frameC2 0 3 0 0 0 0 [] resC2 stC2
        rfl rfl (by decide) rfl
    rw [h]; rfl
  · obtain ⟨f', h, -, -, -, -⟩ :=
      c2_delegatecall_staticcall.2.2.2.2 kecZ benvZ 2 frameC2 0 3 0 0 0 0 [] resC2 stC2
        rfl (by decide) rfl
    rw [h]; rfl

/-! ### Claim C8 -/

/-- The number of stack arguments an opcode pops (`DUP`/`SWAP` inspect
the stack without popping and are listed as 0; they are treated
separately). -/
def popArity : Opcode → Nat
  | .ADD | .MUL | .SUB | .DIV | .SDIV | .MOD | .SMOD | .EXP | .SIGNEXTEND
  | .LT | .GT | .SLT | .SGT | .EQ | .AND | .OR | .XOR | .BYTE
  | .SHL | .SHR | .SAR | .SHA3 | .MSTORE | .MSTORE8 | .SSTORE | .JUMPI
  | .RETURN | .REVERT => 2
  | .ADDMOD | .MULMOD | .CALLDATACOPY | .CODECOPY | .RETURNDATACOPY => 3
  | .ISZERO | .NOT | .BALANCE | .CALLDATALOAD | .EXTCODESIZE | .EXTCODEHASH
  | .BLOCKHASH | .POP | .MLOAD | .SLOAD | .JUMP => 1
  | .EXTCODECOPY => 4
  | .LOG n => 2 + n
  | .CALL => 7
  | .DELEGATECALL | .STATICCALL => 6
  | _ => 0

/-- Concrete frame for the C8 counterexample: a one-word stack. -/
def frame8 : Frame :=
  { state := stC2, msg := .call 1 2 0 0 [], stack := [5], memory := [], code := [],
    ops := [], pc := 0, logs := [], lastInner := none }

/-- Claim C8, counterexample.  `ADD` on the one-element stack `[5]` fails
with `NotEnoughValuesOnStack`, but the stack at termination is empty —
the first pop consumed the 5 before the second pop failed — so the
opcode does *not* leave the stack exactly as it was. -/
theorem c8_counterexample :
    stepOp kecZ benvZ cfZ frame8 .ADD =
      some ({ frame8 with stack := [] }, some (.err (.stackError .underflow))) ∧
    ¬ ({ frame8 with stack := ([] : List Nat) }).stack = frame8.stack :=
  ⟨rfl, by decide⟩

/-- Claim C8, amended.  An opcode that pops `k` arguments, applied to a
stack of depth `< k` (outside a static-context error), fails with
`NotEnoughValuesOnStack`; each individual failing pop leaves the stack
untouched, but the pops preceding it are consumed, so the stack
observable at termination is empty rather than the pre-opcode stack.
`DUP n` and `SWAP n`, which inspect without popping, fail with
`NotEnoughValuesOnStack` on depth `< n` (resp. `< n + 1`) and leave the
whole frame unchanged. -/
theorem c8_amended :
    (∀ (kec : List Nat → Nat) (B : BEnv)
        (cf : StateF → Msg → Option (EVMRes × StateF)) (op : Opcode) (f : Frame),
      f.msg.isStatic = false → f.stack.length < popArity op → 0 < popArity op →
      ∃ f', stepOp kec B cf f op =
          some (f', some (.err (.stackError .underflow))) ∧ f'.stack = []) ∧
    (∀ (kec : List Nat → Nat) (B : BEnv)
        (cf : StateF → Msg → Option (EVMRes × StateF)) (n : Nat) (f : Frame),
      f.stack.length < n →
      stepOp kec B cf f (.DUP n) = some (f, some (.err (.stackError .underflow)))) ∧
    (∀ (kec : List Nat → Nat) (B : BEnv)
        (cf : StateF → Msg → Option (EVMRes × StateF)) (n : Nat) (f : Frame),
      f.stack.length < n + 1 →
      stepOp kec B cf f (.SWAP n) = some (f, some (.err (.stackError .underflow)))) := by
  refine ⟨?_, ?_, ?_⟩
  · intro kec B cf op f hstat hlen hpos
    cases op
    all_goals first
    | (simp only [popArity] at hpos
       exact absurd hpos (Nat.lt_irrefl 0))
    | (simp only [popArity] at hlen
       refine ⟨{ f with stack := [] }, ?_, rfl⟩
       simp only [stepOp, binArm, unArm, triArm, hstat, Bool.false_eq_true, if_false,
         popN_short _ _ hlen, stackErrHalt]
       done)
    | (rename_i n0
       simp only [popArity] at hlen
       by_cases hl2 : f.stack.length < 2
       · refine ⟨{ f with stack := [] }, ?_, rfl⟩
         simp only [stepOp, hstat, Bool.false_eq_true, if_false,
           popN_short _ _ hl2, stackErrHalt]
         done
       · rcases hfs : f.stack with _ | ⟨a, t1⟩
         · refine absurd ?_ hl2
           rw [hfs]
           simp
         · rcases t1 with _ | ⟨b, t⟩
           · refine absurd ?_ hl2
             rw [hfs]
             simp
           · have htn : t.length < n0 := by
               have h2 := hlen
               rw [hfs] at h2
               simp at h2
               omega
             refine ⟨{ f with
               stack := [],
               memory := (memLoadS f.memory (usat a) (usat b)).2 }, ?_, rfl⟩
             simp only [stepOp, hstat, Bool.false_eq_true, if_false, hfs, popN2,
               popN_short _ _ htn, stackErrHalt]
             done)
  · intro kec B cf n f hlen
    simp only [stepOp, dupS, if_pos hlen]
  · intro kec B cf n f hlen
    simp only [stepOp, swapS, if_pos hlen]

/-- Concrete empty-stack frame for the C8 witness. -/
def frame8e : Frame :=
  { state := stC2, msg := .call 1 2 0 0 [], stack := [], memory := [], code := [],
    ops := [], pc := 0, logs := [], lastInner := none }

/-- Witness for C8: `MUL` on an empty stack fails by the amended
theorem, as does `DUP 3` (which leaves the frame unchanged). -/
theorem c8_witness :
    (stepOp kecZ benvZ cfZ frame8e .MUL).isSome = true ∧
    stepOp kecZ benvZ cfZ frame8e (.DUP 3) =
      some (frame8e, some (.err (.stackError .underflow))) := by
  constructor
  · obtain ⟨f', h, -⟩ :=
      c8_amended.1 kecZ benvZ cfZ .MUL frame8e rfl (by decide) (by decide)
    rw [h]; rfl
  · exact c8_amended.2.1 kecZ benvZ cfZ 3 frame8e (by decide)

/-! ### Claims C9 and C10 -/

/-- Concrete frame for the C9 counterexample: no sub-call has completed
(`last_inner_call` is `None`), and the popped `offset = 5`, `size = 7`
exceed the (absent) return data. -/
def frame9 : Frame :=
  { state := stC2, msg := .call 1 2 0 0 [], stack := [0, 5, 7], memory := [],
    code := [], ops := [], pc := 0, logs := [], lastInner := none }

/-- Claim C9, counterexample.  With no completed sub-call, the claimed
length of the return data is 0 and `offset + size = 12 > 0`, so the
claim predicts a `MemoryError::OffsetHigherThanSize` failure — but the
arm performs no bounds check at all in this case and the step succeeds,
consuming the three arguments and continuing. -/
theorem c9_counterexample :
    stepOp kecZ benvZ cfZ frame9 .RETURNDATACOPY =
      some ({ frame9 with stack := [] }, none) ∧
    usat 5 + usat 7 > 0 :=
  ⟨rfl, by decide⟩

/-- Claim C9, amended.  `RETURNDATACOPY` fails with
`MemoryError::OffsetHigherThanSize` exactly when a sub-call result is
cached and `offset + size` exceeds the cached return data's length;
when no sub-call has completed it succeeds without any bounds check;
and it is the only opcode whose step can produce a `MemoryError`. -/
theorem c9_amended :
    (∀ (kec : List Nat → Nat) (B : BEnv)
        (cf : StateF → Msg → Option (EVMRes × StateF)) (f : Frame)
        (d o sz : Nat) (rest : List Nat) (c : EVMRes),
      f.stack = d :: o :: sz :: rest → f.lastInner = some c →
      (stepOp kec B cf f .RETURNDATACOPY =
          some ({ f with stack := rest }, some (.err .memoryError)) ↔
        usat o + usat sz > c.returnData.length)) ∧
    (∀ (kec : List Nat → Nat) (B : BEnv)
        (cf : StateF → Msg → Option (EVMRes × StateF)) (f : Frame)
        (d o sz : Nat) (rest : List Nat),
      f.stack = d :: o :: sz :: rest → f.lastInner = none →
      stepOp kec B cf f .RETURNDATACOPY = some ({ f with stack := rest }, none)) ∧
    (∀ (kec : List Nat → Nat) (B : BEnv)
        (cf : StateF → Msg → Option (EVMRes × StateF)) (f : Frame)
        (op : Opcode) (f' : Frame),
      stepOp kec B cf f op = some (f', some (.err .memoryError)) →
      op = .RETURNDATACOPY) := by
  refine ⟨?_, ?_, ?_⟩
  · intro kec B cf f d o sz rest c hstack hlast
    simp only [stepOp, hstack, popN3, hlast]
    by_cases hc : usat o + usat sz > c.returnData.length
    · simp [hc]
    · simp [hc]
  · intro kec B cf f d o sz rest hstack hlast
    simp only [stepOp, hstack, popN3, hlast]
  · intro kec B cf f op f' hstep
    cases op <;>
      first
      | rfl
      | (exfalso
         simp only [stepOp, binArm, unArm, triArm, pushArm, pushCont, contWith,
           stackErrHalt, childFinish, pushS, dupS, swapS] at hstep
         repeat' split at hstep
         all_goals simp_all)

/-- Cached child result used by the C9/C10 witnesses. -/
def res9 : EVMRes := { stack := [], returnData := [1, 2, 3], logs := [], status := true }

/-- Concrete frame for the C9 witness: cached return data of length 3,
popped `offset = 2`, `size = 9`, so `2 + 9 > 3` must fail. -/
def frame9b : Frame :=
  { state := stC2, msg := .call 1 2 0 0 [], stack := [0, 2, 9], memory := [],
    code := [], ops := [], pc := 0, logs := [], lastInner := some res9 }

/-- Witness for C9: the out-of-range copy fails with the memory error. -/
theorem c9_witness :
    stepOp kecZ benvZ cfZ frame9b .RETURNDATACOPY =
      some ({ frame9b with stack := [] }, some (.err .memoryError)) :=
  (c9_amended.1 kecZ benvZ cfZ frame9b 0 2 9 [] res9 rfl rfl).mpr (by decide)

theorem memStoreS_getD (m : List Nat) (off sz : Nat) (src : List Nat) (i : Nat)
    (h : i < sz) :
    (memStoreS m off sz src).getD (off + i) 0 = src.getD i 0 := by
  have hceil := le_ceil32 (off + sz)
  have hmax := Nat.le_max_right m.length (ceil32 (off + sz))
  have hlt : off + i < max m.length (ceil32 (off + sz)) := by omega
  unfold memStoreS
  rw [List.getD_eq_getElem?_getD, List.getElem?_map, List.getElem?_range hlt]
  simp only [Option.map_some', Option.getD_some]
  rw [if_pos ⟨Nat.le_add_right off i, by omega⟩]
  congr 1
  omega

/-- Claim C10.  When a sub-call result is cached and the bounds check
passes, `RETURNDATACOPY(destOffset, offset, size)` writes the *first*
`size` bytes of the cached return-data buffer into memory at
`destOffset` — the popped source offset takes part only in the bounds
check, never in selecting the copied bytes; and when no sub-call has
completed, it pops its three arguments and succeeds without touching
memory, whatever the argument values. -/
theorem c10_returndatacopy_copies_from_start :
    (∀ (kec : List Nat → Nat) (B : BEnv)
        (cf : StateF → Msg → Option (EVMRes × StateF)) (f : Frame)
        (d o sz : Nat) (rest : List Nat) (c : EVMRes),
      f.stack = d :: o :: sz :: rest → f.lastInner = some c →
      usat o + usat sz ≤ c.returnData.length →
      stepOp kec B cf f .RETURNDATACOPY =
        some ({ f with
          stack := rest,
          memory := memStoreS f.memory (usat d) (usat sz) c.returnData }, none) ∧
      (∀ i, i < usat sz →
        (memStoreS f.memory (usat d) (usat sz) c.returnData).getD (usat d + i) 0 =
          c.returnData.getD i 0)) ∧
    (∀ (kec : List Nat → Nat) (B : BEnv)
        (cf : StateF → Msg → Option (EVMRes × StateF)) (f : Frame)
        (d o sz : Nat) (rest : List Nat),
      f.stack = d :: o :: sz :: rest → f.lastInner = none →
      stepOp kec B cf f .RETURNDATACOPY = some ({ f with stack := rest }, none) ∧
      ({ f with stack := rest } : Frame).memory = f.memory) := by
  constructor
  · intro kec B cf f d o sz rest c hstack hlast hle
    constructor
    · simp only [stepOp, hstack, popN3, hlast]
      rw [if_neg (by omega)]
    · intro i hi
      exact memStoreS_getD f.memory (usat d) (usat sz) c.returnData i hi
  · intro kec B cf f d o sz rest hstack hlast
    exact ⟨by simp only [stepOp, hstack, popN3, hlast], rfl⟩

/-- Concrete frame for the C10 witness: cached return data `[1, 2, 3]`,
`destOffset = 1`, `offset = 1`, `size = 2`. -/
def frame10 : Frame :=
  { state := stC2, msg := .call 1 2 0 0 [], stack := [1, 1, 2], memory := [],
    code := [], ops := [], pc := 0, logs := [], lastInner := some res9 }

/-- Witness for C10: the in-range copy succeeds and byte 0 of the
written region is `return_data[0] = 1` (not `return_data[offset]`). -/
theorem c10_witness :
    (stepOp kecZ benvZ cfZ frame10 .RETURNDATACOPY).isSome = true ∧
    (memStoreS frame10.memory (usat 1) (usat 2) res9.returnData).getD (usat 1 + 0) 0 =
      res9.returnData.getD 0 0 := by
  obtain ⟨h1, h2⟩ :=
    c10_returndatacopy_copies_from_start.1 kecZ benvZ cfZ frame10 1 1 2 [] res9
      rfl rfl (by decide)
  exact ⟨by rw [h1]; rfl, h2 0 (by decide)⟩
